import Mathlib

/-!
Verification of the query-runner selection front-end
(`src/mongo/db/query/get_runner.cpp`) and the projection validator
(`src/mongo/db/query/parsed_projection.cpp`).

The development is a shallow embedding: BSON documents are lists of
(field-name, value) pairs, the C++ functions become Lean functions over
them, and the external collaborators (plan cache, planner, stage builder,
catalog) become oracle fields of an environment record, mirroring the way
`getRunner` consumes them through virtual interfaces.
-/

namespace Mongo

/-- BSON values, restricted to the shapes the verified code inspects:
booleans, numbers (modelled as integers), strings, the `MinKey`/`MaxKey`
sentinels, embedded documents and arrays. -/
inductive BSONValue where
  | boolv (b : Bool)
  | numv (n : Int)
  | strv (s : String)
  | minKey
  | maxKey
  | objv (fields : List (String × BSONValue))
  | arrayv (elems : List BSONValue)
  deriving Repr

/-- A BSON document: an ordered list of named values (duplicate names are
legal in BSON and are preserved, as `BSONObjIterator` preserves them). -/
abbrev BSONObj := List (String × BSONValue)

mutual

/-- Structural equality of BSON values (the embedding of `woCompare == 0`
on well-typed values). -/
def bvalEq : BSONValue → BSONValue → Bool
  | .boolv a, .boolv b => a == b
  | .numv a, .numv b => a == b
  | .strv a, .strv b => a == b
  | .minKey, .minKey => true
  | .maxKey, .maxKey => true
  | .objv fs, .objv gs => bfieldsEq fs gs
  | .arrayv as, .arrayv bs => barrEq as bs
  | _, _ => false

/-- Structural equality of BSON field lists. -/
def bfieldsEq : List (String × BSONValue) → List (String × BSONValue) → Bool
  | [], [] => true
  | (n, v) :: fs, (m, w) :: gs => n == m && bvalEq v w && bfieldsEq fs gs
  | _, _ => false

/-- Structural equality of BSON arrays. -/
def barrEq : List BSONValue → List BSONValue → Bool
  | [], [] => true
  | v :: as, w :: bs => bvalEq v w && barrEq as bs
  | _, _ => false

end

mutual

/-- Soundness and completeness of `bvalEq`. -/
theorem bvalEq_iff : ∀ a b, bvalEq a b = true ↔ a = b
  | .boolv _, .boolv _ => by simp [bvalEq]
  | .numv _, .numv _ => by simp [bvalEq]
  | .strv _, .strv _ => by simp [bvalEq]
  | .minKey, .minKey => by simp [bvalEq]
  | .maxKey, .maxKey => by simp [bvalEq]
  | .objv fs, .objv gs => by simp [bvalEq, bfieldsEq_iff fs gs]
  | .arrayv as, .arrayv bs => by simp [bvalEq, barrEq_iff as bs]
  | .boolv _, .numv _ => by simp [bvalEq]
  | .boolv _, .strv _ => by simp [bvalEq]
  | .boolv _, .minKey => by simp [bvalEq]
  | .boolv _, .maxKey => by simp [bvalEq]
  | .boolv _, .objv _ => by simp [bvalEq]
  | .boolv _, .arrayv _ => by simp [bvalEq]
  | .numv _, .boolv _ => by simp [bvalEq]
  | .numv _, .strv _ => by simp [bvalEq]
  | .numv _, .minKey => by simp [bvalEq]
  | .numv _, .maxKey => by simp [bvalEq]
  | .numv _, .objv _ => by simp [bvalEq]
  | .numv _, .arrayv _ => by simp [bvalEq]
  | .strv _, .boolv _ => by simp [bvalEq]
  | .strv _, .numv _ => by simp [bvalEq]
  | .strv _, .minKey => by simp [bvalEq]
  | .strv _, .maxKey => by simp [bvalEq]
  | .strv _, .objv _ => by simp [bvalEq]
  | .strv _, .arrayv _ => by simp [bvalEq]
  | .minKey, .boolv _ => by simp [bvalEq]
  | .minKey, .numv _ => by simp [bvalEq]
  | .minKey, .strv _ => by simp [bvalEq]
  | .minKey, .maxKey => by simp [bvalEq]
  | .minKey, .objv _ => by simp [bvalEq]
  | .minKey, .arrayv _ => by simp [bvalEq]
  | .maxKey, .boolv _ => by simp [bvalEq]
  | .maxKey, .numv _ => by simp [bvalEq]
  | .maxKey, .strv _ => by simp [bvalEq]
  | .maxKey, .minKey => by simp [bvalEq]
  | .maxKey, .objv _ => by simp [bvalEq]
  | .maxKey, .arrayv _ => by simp [bvalEq]
  | .objv _, .boolv _ => by simp [bvalEq]
  | .objv _, .numv _ => by simp [bvalEq]
  | .objv _, .strv _ => by simp [bvalEq]
  | .objv _, .minKey => by simp [bvalEq]
  | .objv _, .maxKey => by simp [bvalEq]
  | .objv _, .arrayv _ => by simp [bvalEq]
  | .arrayv _, .boolv _ => by simp [bvalEq]
  | .arrayv _, .numv _ => by simp [bvalEq]
  | .arrayv _, .strv _ => by simp [bvalEq]
  | .arrayv _, .minKey => by simp [bvalEq]
  | .arrayv _, .maxKey => by simp [bvalEq]
  | .arrayv _, .objv _ => by simp [bvalEq]

/-- Soundness and completeness of `bfieldsEq`. -/
theorem bfieldsEq_iff : ∀ fs gs, bfieldsEq fs gs = true ↔ fs = gs
  | [], [] => by simp [bfieldsEq]
  | (n, v) :: fs, (m, w) :: gs => by
      simp [bfieldsEq, bvalEq_iff v w, bfieldsEq_iff fs gs, and_assoc]
  | [], _ :: _ => by simp [bfieldsEq]
  | _ :: _, [] => by simp [bfieldsEq]

/-- Soundness and completeness of `barrEq`. -/
theorem barrEq_iff : ∀ as bs, barrEq as bs = true ↔ as = bs
  | [], [] => by simp [barrEq]
  | v :: as, w :: bs => by simp [barrEq, bvalEq_iff v w, barrEq_iff as bs]
  | [], _ :: _ => by simp [barrEq]
  | _ :: _, [] => by simp [barrEq]

end

instance : DecidableEq BSONValue := fun a b => decidable_of_iff _ (bvalEq_iff a b)

/-- Embedding of `BSONElement::trueValue()`: `false` for boolean false and
numeric zero, `true` for every other value the model carries. -/
def trueValue : BSONValue → Bool
  | .boolv b => b
  | .numv n => n != 0
  | _ => true

/-- Embedding of `BSONElement::isNumber()`. -/
def isNumber : BSONValue → Bool
  | .numv _ => true
  | _ => false

/-- Embedding of `BSONElement::isBoolean()`. -/
def isBoolean : BSONValue → Bool
  | .boolv _ => true
  | _ => false

/-- Embedding of `BSONElement::numberInt()`: the numeric value for numbers,
0/1 for booleans, and zero for every other type. -/
def numberInt : BSONValue → Int
  | .numv n => n
  | .boolv b => if b then 1 else 0
  | _ => 0

/-- Embedding of `mongoutils::str::contains(s, c)` for a single character. -/
def strContainsChar (s : String) (c : Char) : Bool :=
  s.toList.contains c

/-- Embedding of `mongoutils::str::contains(s, pat)` for a substring. -/
def strContainsSub (s pat : String) : Bool :=
  s.toList.tails.any (fun t => pat.toList.isPrefixOf t)

/-- Embedding of `mongoutils::str::before(s, c)`: everything before the
first occurrence of `c`, or all of `s` when `c` does not occur. -/
def strBefore (s : String) (c : Char) : String :=
  String.mk (s.toList.takeWhile (fun a => a ≠ c))

--
-- Projection validator (`parsed_projection.cpp`, `ParsedProjection::make`).
--

/-- Array-operator context of a projection (`ParsedProjection::ArrayOpType`). -/
inductive ArrayOpType where
  | normal
  | positional
  | elemMatch
  deriving Repr, DecidableEq

/-- Failure cases of `ParsedProjection::make`; every constructor stands for
a `Status` with code `BadValue` and the respective message. -/
inductive ProjError where
  | objMultipleFields
  | sliceWrongSize
  | sliceLimitNotPositive
  | sliceBadArgument
  | elemMatchBadArgument
  | positionalAndElemMatch
  | elemMatchOnDotted
  | metaNested
  | metaBadArgument
  | metaUnsupported
  | unsupportedOption
  | mixedInclusionExclusion
  | positionalExclusion
  | multiplePositional
  | positionalDoesNotMatchQuery
  deriving Repr, DecidableEq

/-- The mutable locals of the element walk in `ParsedProjection::make`:
`include_exclude` (`none` for the -1 "uninitialized" state), `include`
(named `incl` here), the non-simple / dotted-field markers, `includeID`
and the array-operator context. -/
structure WalkState where
  include_exclude : Option Bool
  incl : Bool
  hasNonSimple : Bool
  hasDottedField : Bool
  includeID : Bool
  arrayOpType : ArrayOpType
  deriving Repr, DecidableEq

/-- Initial walk state, from the initializers at the top of `make`. -/
def initWalkState : WalkState :=
  { include_exclude := none
    incl := true
    hasNonSimple := false
    hasDottedField := false
    includeID := true
    arrayOpType := .normal }

/-- The `!e.isNumber() && !e.isBoolean()` update of `hasNonSimple`. -/
def markNonSimple (st : WalkState) (v : BSONValue) : WalkState :=
  if !isNumber v && !isBoolean v then { st with hasNonSimple := true } else st

/-- The `Object == e.type()` branch of the element walk: sub-operator
validation for `$slice`, `$elemMatch` and `$meta`.  The external
`MatchExpressionParser::parse` call on the `$elemMatch` argument is not
part of this repository slice and is modelled as succeeding. -/
def stepObjectElem (st : WalkState) (n : String) (fields : List (String × BSONValue)) :
    Except ProjError WalkState :=
  match fields with
  | [(n2, v2)] =>
    if n2 = "$slice" then
      if isNumber v2 then .ok st
      else
        match v2 with
        | .arrayv arr =>
          match arr with
          | [_, lim] =>
            if numberInt lim ≤ 0 then .error .sliceLimitNotPositive else .ok st
          | _ => .error .sliceWrongSize
        | _ => .error .sliceBadArgument
    else if n2 = "$elemMatch" then
      match v2 with
      | .objv _ =>
        if st.arrayOpType = .positional then .error .positionalAndElemMatch
        else if strContainsChar n '.' then .error .elemMatchOnDotted
        else .ok { st with arrayOpType := .elemMatch }
      | _ => .error .elemMatchBadArgument
    else if n2 = "$meta" then
      if strContainsChar n '.' then .error .metaNested
      else
        match v2 with
        | .strv s =>
          if s = "text" ∨ s = "diskloc" then .ok st else .error .metaUnsupported
        | _ => .error .metaBadArgument
    else .error .unsupportedOption
  | _ => .error .objMultipleFields

/-- The main `if`/`else if`/`else` chain of the element walk: object
elements dispatch to the sub-operator validation, a falsy `_id` clears
`includeID`, and every other element takes the inclusion/exclusion
polarity check (recording dotted field names on the way). -/
def stepMainChain (st : WalkState) (n : String) (v : BSONValue) :
    Except ProjError WalkState :=
  match v with
  | .objv fields => stepObjectElem st n fields
  | _ =>
    if n = "_id" ∧ trueValue v = false then .ok { st with includeID := false }
    else
      let st := if strContainsChar n '.' then { st with hasDottedField := true } else st
      match st.include_exclude with
      | none => .ok { st with include_exclude := some (trueValue v), incl := !trueValue v }
      | some b => if b = trueValue v then .ok st else .error .mixedInclusionExclusion

/-- The trailing `contains(e.fieldName(), ".$")` positional-marker check
of the element walk. -/
def stepPositionalCheck (st : WalkState) (n : String) (v : BSONValue) :
    Except ProjError WalkState :=
  if strContainsSub n ".$" then
    if trueValue v = false then .error .positionalExclusion
    else if st.arrayOpType = .positional then .error .multiplePositional
    else if st.arrayOpType = .elemMatch then .error .positionalAndElemMatch
    else .ok { st with arrayOpType := .positional }
  else .ok st

/-- One iteration of the element walk of `ParsedProjection::make`. -/
def stepElem (st : WalkState) (n : String) (v : BSONValue) :
    Except ProjError WalkState :=
  match stepMainChain (markNonSimple st v) n v with
  | .error e => .error e
  | .ok st1 => stepPositionalCheck st1 n v

/-- The full element walk (`while (it.more())` loop) over a projection. -/
def walkElems (st : WalkState) : BSONObj → Except ProjError WalkState
  | [] => .ok st
  | (n, v) :: rest =>
    match stepElem st n v with
    | .error e => .error e
    | .ok st1 => walkElems st1 rest

/-- Check of one query field name against the positional markers of the
projection (the inner loop of the positional validation). -/
def positionalMatches (spec : BSONObj) (queryField : String) : Bool :=
  spec.any (fun pe =>
    strContainsSub pe.1 ".$" && strBefore queryField '.' == strBefore pe.1 '.')

/-- The outer loop of the positional validation: a query field named
`$and` waives the check, otherwise some query field must share its
pre-dot prefix with a positional projection field. -/
def validatePositional (spec : BSONObj) : List (String × BSONValue) → Bool
  | [] => false
  | qe :: rest =>
    if qe.1 = "$and" then true
    else if positionalMatches spec qe.1 then true
    else validatePositional spec rest

/-- Result of a successful `ParsedProjection::make`: the saved source, the
requires-document bit, the required-fields list, and the array-operator
classification.  `includeID` (a local of the C++ function) is also
recorded, since it determines the required-fields list. -/
structure ParsedProjection where
  source : BSONObj
  requiresDocument : Bool
  requiredFields : List String
  arrayOpType : ArrayOpType
  includeID : Bool
  deriving Repr, DecidableEq

/-- Embedding of `ParsedProjection::make(spec, query, out)`: the element
walk, the assembly of the requires-document bit and required fields, and
the positional validation against the query document. -/
def ParsedProjection.make (spec query : BSONObj) : Except ProjError ParsedProjection :=
  match walkElems initWalkState spec with
  | .error e => .error e
  | .ok st =>
    let requiresDocument := st.incl || st.hasNonSimple || st.hasDottedField
    let requiredFields : List String :=
      if requiresDocument then []
      else
        (if st.includeID then ["_id"] else []) ++
          (spec.filter (fun p => trueValue p.2)).map (fun p => p.1)
    let pp : ParsedProjection :=
      ⟨spec, requiresDocument, requiredFields, st.arrayOpType, st.includeID⟩
    if st.arrayOpType ≠ .positional then .ok pp
    else if validatePositional spec query then .ok pp
    else .error .positionalDoesNotMatchQuery


def isObj : BSONValue → Bool
  | .objv _ => true
  | _ => false

def polarityRelevant (n : String) (v : BSONValue) : Bool :=
  !isObj v && (n != "_id" || trueValue v)

theorem stepObjectElem_ok_cases {st : WalkState} {n : String}
    {fs : List (String × BSONValue)} {st1 : WalkState}
    (h : stepObjectElem st n fs = .ok st1) :
    st1 = st ∨ st1 = { st with arrayOpType := ArrayOpType.elemMatch } := by
  unfold stepObjectElem at h
  repeat' split at h
  all_goals simp_all

theorem stepPositionalCheck_ok_cases {st : WalkState} {n : String} {v : BSONValue}
    {st1 : WalkState} (h : stepPositionalCheck st n v = .ok st1) :
    st1 = st ∨ st1 = { st with arrayOpType := ArrayOpType.positional } := by
  unfold stepPositionalCheck at h
  repeat' split at h
  all_goals simp_all


theorem markNonSimple_fields (st : WalkState) (v : BSONValue) :
    (markNonSimple st v).include_exclude = st.include_exclude ∧
    (markNonSimple st v).includeID = st.includeID ∧
    (markNonSimple st v).arrayOpType = st.arrayOpType := by
  unfold markNonSimple
  split <;> simp

theorem stepMainChain_include_exclude {st : WalkState} {n : String} {v : BSONValue}
    {st1 : WalkState} (h : stepMainChain st n v = .ok st1) :
    st1.include_exclude = st.include_exclude ∨
      (st.include_exclude = none ∧ st1.include_exclude = some (trueValue v)) := by
  unfold stepMainChain at h
  split at h
  case _ fs =>
    rcases stepObjectElem_ok_cases h with h1 | h1 <;> simp [h1]
  case _ =>
    repeat'
      first
        | (split at h)
        | (simp only [Except.ok.injEq] at h)
        | (subst h)
    all_goals simp_all

theorem stepMainChain_some_rel {st : WalkState} {n : String} {v : BSONValue}
    {st1 : WalkState} {b : Bool} (h : stepMainChain st n v = .ok st1)
    (hb : st.include_exclude = some b) (hrel : polarityRelevant n v = true) :
    trueValue v = b := by
  unfold stepMainChain at h
  unfold polarityRelevant isObj at hrel
  split at h
  case _ fs => simp at hrel
  case _ =>
    repeat'
      first
        | (split at h)
        | (simp only [Except.ok.injEq] at h)
        | (subst h)
    all_goals simp_all

theorem stepMainChain_none_rel {st : WalkState} {n : String} {v : BSONValue}
    {st1 : WalkState} (h : stepMainChain st n v = .ok st1)
    (hb : st.include_exclude = none) (hrel : polarityRelevant n v = true) :
    st1.include_exclude = some (trueValue v) := by
  unfold stepMainChain at h
  unfold polarityRelevant isObj at hrel
  split at h
  case _ fs => simp at hrel
  case _ =>
    repeat'
      first
        | (split at h)
        | (simp only [Except.ok.injEq] at h)
        | (subst h)
    all_goals simp_all

theorem stepMainChain_includeID {st : WalkState} {n : String} {v : BSONValue}
    {st1 : WalkState} (h : stepMainChain st n v = .ok st1) :
    st1.includeID = (st.includeID && !(n == "_id" && !trueValue v)) := by
  unfold stepMainChain at h
  split at h
  case _ fs =>
    rcases stepObjectElem_ok_cases h with h1 | h1 <;> simp_all [trueValue]
  case _ =>
    repeat'
      first
        | (split at h)
        | (simp only [Except.ok.injEq] at h)
        | (subst h)
    all_goals (simp_all; try tauto)

theorem stepMainChain_positional_sticky {st : WalkState} {n : String} {v : BSONValue}
    {st1 : WalkState} (h : stepMainChain st n v = .ok st1)
    (hp : st.arrayOpType = .positional) : st1.arrayOpType = .positional := by
  unfold stepMainChain at h
  split at h
  case _ fs =>
    unfold stepObjectElem at h
    repeat' split at h
    all_goals simp_all
  case _ =>
    repeat'
      first
        | (split at h)
        | (simp only [Except.ok.injEq] at h)
        | (subst h)
    all_goals simp_all


theorem stepElem_include_exclude {st : WalkState} {n : String} {v : BSONValue}
    {st1 : WalkState} (h : stepElem st n v = .ok st1) :
    st1.include_exclude = st.include_exclude ∨
      (st.include_exclude = none ∧ st1.include_exclude = some (trueValue v)) := by
  unfold stepElem at h
  cases hm : stepMainChain (markNonSimple st v) n v with
  | error e => rw [hm] at h; cases h
  | ok st2 =>
    rw [hm] at h
    have hpres : st1.include_exclude = st2.include_exclude := by
      rcases stepPositionalCheck_ok_cases h with h1 | h1 <;> simp [h1]
    have hmark := (markNonSimple_fields st v).1
    rcases stepMainChain_include_exclude hm with h2 | ⟨h2, h3⟩
    · left; rw [hpres, h2, hmark]
    · right; exact ⟨by rw [← hmark]; exact h2, by rw [hpres]; exact h3⟩

theorem stepElem_some_rel {st : WalkState} {n : String} {v : BSONValue}
    {st1 : WalkState} {b : Bool} (h : stepElem st n v = .ok st1)
    (hb : st.include_exclude = some b) (hrel : polarityRelevant n v = true) :
    trueValue v = b := by
  unfold stepElem at h
  cases hm : stepMainChain (markNonSimple st v) n v with
  | error e => rw [hm] at h; cases h
  | ok st2 =>
    exact stepMainChain_some_rel hm (by rw [(markNonSimple_fields st v).1]; exact hb) hrel

theorem stepElem_none_rel {st : WalkState} {n : String} {v : BSONValue}
    {st1 : WalkState} (h : stepElem st n v = .ok st1)
    (hb : st.include_exclude = none) (hrel : polarityRelevant n v = true) :
    st1.include_exclude = some (trueValue v) := by
  unfold stepElem at h
  cases hm : stepMainChain (markNonSimple st v) n v with
  | error e => rw [hm] at h; cases h
  | ok st2 =>
    rw [hm] at h
    have hpres : st1.include_exclude = st2.include_exclude := by
      rcases stepPositionalCheck_ok_cases h with h1 | h1 <;> simp [h1]
    rw [hpres]
    exact stepMainChain_none_rel hm (by rw [(markNonSimple_fields st v).1]; exact hb) hrel

theorem stepElem_includeID {st : WalkState} {n : String} {v : BSONValue}
    {st1 : WalkState} (h : stepElem st n v = .ok st1) :
    st1.includeID = (st.includeID && !(n == "_id" && !trueValue v)) := by
  unfold stepElem at h
  cases hm : stepMainChain (markNonSimple st v) n v with
  | error e => rw [hm] at h; cases h
  | ok st2 =>
    rw [hm] at h
    have hpres : st1.includeID = st2.includeID := by
      rcases stepPositionalCheck_ok_cases h with h1 | h1 <;> simp [h1]
    rw [hpres, stepMainChain_includeID hm, (markNonSimple_fields st v).2.1]

theorem stepElem_positional_sticky {st : WalkState} {n : String} {v : BSONValue}
    {st1 : WalkState} (h : stepElem st n v = .ok st1)
    (hp : st.arrayOpType = .positional) : st1.arrayOpType = .positional := by
  unfold stepElem at h
  cases hm : stepMainChain (markNonSimple st v) n v with
  | error e => rw [hm] at h; cases h
  | ok st2 =>
    rw [hm] at h
    have h2 : st2.arrayOpType = .positional :=
      stepMainChain_positional_sticky hm (by rw [(markNonSimple_fields st v).2.2]; exact hp)
    rcases stepPositionalCheck_ok_cases h with h1 | h1 <;> simp [h1, h2]

theorem stepElem_marker_positional {st : WalkState} {n : String} {v : BSONValue}
    {st1 : WalkState} (h : stepElem st n v = .ok st1)
    (hmk : strContainsSub n ".$" = true) : st1.arrayOpType = .positional := by
  unfold stepElem at h
  cases hm : stepMainChain (markNonSimple st v) n v with
  | error e => rw [hm] at h; cases h
  | ok st2 =>
    rw [hm] at h
    unfold stepPositionalCheck at h
    rw [hmk] at h
    simp only [if_true] at h
    repeat'
      first
        | (split at h)
        | (simp only [Except.ok.injEq] at h)
        | (subst h)
    all_goals simp_all

theorem walkElems_some_all (l : BSONObj) :
    ∀ (st st' : WalkState) (b : Bool), walkElems st l = .ok st' →
      st.include_exclude = some b →
      st'.include_exclude = some b ∧
        ∀ n v, (n, v) ∈ l → polarityRelevant n v = true → trueValue v = b := by
  induction l with
  | nil =>
    intro st st' b h hb
    simp only [walkElems, Except.ok.injEq] at h
    subst h
    exact ⟨hb, by simp⟩
  | cons p rest ih =>
    obtain ⟨n, v⟩ := p
    intro st st' b h hb
    unfold walkElems at h
    cases hs : stepElem st n v with
    | error e => rw [hs] at h; cases h
    | ok st1 =>
      rw [hs] at h
      have h1 : st1.include_exclude = some b := by
        rcases stepElem_include_exclude hs with h2 | ⟨h2, _⟩
        · rw [h2]; exact hb
        · rw [hb] at h2; cases h2
      obtain ⟨ha, hall⟩ := ih st1 st' b h h1
      refine ⟨ha, ?_⟩
      intro n2 v2 hmem hrel
      rcases List.mem_cons.mp hmem with heq | hmem2
      · cases heq
        exact stepElem_some_rel hs hb hrel
      · exact hall n2 v2 hmem2 hrel

theorem walkElems_rel_pair (l : BSONObj) :
    ∀ (st st' : WalkState), walkElems st l = .ok st' →
      ∀ n1 v1 n2 v2, (n1, v1) ∈ l → (n2, v2) ∈ l →
        polarityRelevant n1 v1 = true → polarityRelevant n2 v2 = true →
        trueValue v1 = trueValue v2 := by
  induction l with
  | nil => intro st st' h n1 v1 n2 v2 hm1; cases hm1
  | cons p rest ih =>
    obtain ⟨n, v⟩ := p
    intro st st' h n1 v1 n2 v2 hm1 hm2 hr1 hr2
    unfold walkElems at h
    cases hs : stepElem st n v with
    | error e => rw [hs] at h; cases h
    | ok st1 =>
      rw [hs] at h
      rcases List.mem_cons.mp hm1 with he1 | ht1 <;> rcases List.mem_cons.mp hm2 with he2 | ht2
      · cases he1; cases he2; rfl
      · cases he1
        cases hie : st.include_exclude with
        | none =>
          have h1 := stepElem_none_rel hs hie hr1
          exact ((walkElems_some_all rest st1 st' (trueValue v) h h1).2 n2 v2 ht2 hr2).symm
        | some b =>
          have hv1 := stepElem_some_rel hs hie hr1
          have h1 : st1.include_exclude = some b := by
            rcases stepElem_include_exclude hs with h2 | ⟨h2, _⟩
            · rw [h2]; exact hie
            · rw [hie] at h2; cases h2
          have hv2 := (walkElems_some_all rest st1 st' b h h1).2 n2 v2 ht2 hr2
          rw [hv1, hv2]
      · cases he2
        cases hie : st.include_exclude with
        | none =>
          have h2 := stepElem_none_rel hs hie hr2
          exact (walkElems_some_all rest st1 st' (trueValue v) h h2).2 n1 v1 ht1 hr1
        | some b =>
          have hv2 := stepElem_some_rel hs hie hr2
          have h1 : st1.include_exclude = some b := by
            rcases stepElem_include_exclude hs with h3 | ⟨h3, _⟩
            · rw [h3]; exact hie
            · rw [hie] at h3; cases h3
          have hv1 := (walkElems_some_all rest st1 st' b h h1).2 n1 v1 ht1 hr1
          rw [hv1, hv2]
      · exact ih st1 st' h n1 v1 n2 v2 ht1 ht2 hr1 hr2

theorem walkElems_includeID (l : BSONObj) :
    ∀ (st st' : WalkState), walkElems st l = .ok st' →
      st'.includeID =
        (st.includeID && !(l.any (fun p => p.1 == "_id" && !trueValue p.2))) := by
  induction l with
  | nil =>
    intro st st' h
    simp only [walkElems, Except.ok.injEq] at h
    subst h
    simp
  | cons p rest ih =>
    obtain ⟨n, v⟩ := p
    intro st st' h
    unfold walkElems at h
    cases hs : stepElem st n v with
    | error e => rw [hs] at h; cases h
    | ok st1 =>
      rw [hs] at h
      rw [ih st1 st' h, stepElem_includeID hs]
      simp only [List.any_cons, Bool.not_or, Bool.and_assoc]

theorem walkElems_positional_sticky (l : BSONObj) :
    ∀ (st st' : WalkState), walkElems st l = .ok st' →
      st.arrayOpType = .positional → st'.arrayOpType = .positional := by
  induction l with
  | nil =>
    intro st st' h hp
    simp only [walkElems, Except.ok.injEq] at h
    subst h
    exact hp
  | cons p rest ih =>
    obtain ⟨n, v⟩ := p
    intro st st' h hp
    unfold walkElems at h
    cases hs : stepElem st n v with
    | error e => rw [hs] at h; cases h
    | ok st1 =>
      rw [hs] at h
      exact ih st1 st' h (stepElem_positional_sticky hs hp)

theorem walkElems_marker_positional (l : BSONObj) :
    ∀ (st st' : WalkState) (n : String) (v : BSONValue), walkElems st l = .ok st' →
      (n, v) ∈ l → strContainsSub n ".$" = true → st'.arrayOpType = .positional := by
  induction l with
  | nil => intro st st' n v h hm; cases hm
  | cons p rest ih =>
    obtain ⟨n0, v0⟩ := p
    intro st st' n v h hm hmk
    unfold walkElems at h
    cases hs : stepElem st n0 v0 with
    | error e => rw [hs] at h; cases h
    | ok st1 =>
      rw [hs] at h
      rcases List.mem_cons.mp hm with he | ht
      · cases he
        exact walkElems_positional_sticky rest st1 st' h (stepElem_marker_positional hs hmk)
      · exact ih st1 st' n v h ht hmk

theorem validatePositional_iff (spec : BSONObj) (query : List (String × BSONValue)) :
    validatePositional spec query = true ↔
      ∃ qe ∈ query, qe.1 = "$and" ∨ positionalMatches spec qe.1 = true := by
  induction query with
  | nil => simp [validatePositional]
  | cons qe rest ih =>
    unfold validatePositional
    split_ifs with h1 h2 <;> simp_all


theorem make_walk_error {spec query : BSONObj} {e : ProjError}
    (h : walkElems initWalkState spec = .error e) :
    ParsedProjection.make spec query = .error e := by
  unfold ParsedProjection.make
  rw [h]

theorem make_ok_inv {spec query : BSONObj} {pp : ParsedProjection}
    (h : ParsedProjection.make spec query = .ok pp) :
    ∃ st, walkElems initWalkState spec = .ok st ∧
      pp.requiresDocument = (st.incl || st.hasNonSimple || st.hasDottedField) ∧
      pp.includeID = st.includeID ∧
      pp.arrayOpType = st.arrayOpType ∧
      pp.requiredFields =
        (if pp.requiresDocument then []
         else (if st.includeID then ["_id"] else []) ++
           (spec.filter (fun p => trueValue p.2)).map (fun p => p.1)) := by
  unfold ParsedProjection.make at h
  cases hw : walkElems initWalkState spec with
  | error e => rw [hw] at h; cases h
  | ok st =>
    rw [hw] at h
    refine ⟨st, rfl, ?_⟩
    simp only [] at h
    split at h
    · simp only [Except.ok.injEq] at h
      subst h
      simp
    · split at h
      · simp only [Except.ok.injEq] at h
        subst h
        simp
      · cases h


theorem validatePositional_spec (spec query : BSONObj) :
    validatePositional spec query = true ↔
      ((∃ qe ∈ query, qe.1 = "$and") ∨
        (∃ qe ∈ query, ∃ pe ∈ spec, strContainsSub pe.1 ".$" = true ∧
          strBefore qe.1 '.' = strBefore pe.1 '.')) := by
  rw [validatePositional_iff]
  unfold positionalMatches
  constructor
  · rintro ⟨qe, hqe, hand | hmatch⟩
    · exact Or.inl ⟨qe, hqe, hand⟩
    · rw [List.any_eq_true] at hmatch
      obtain ⟨pe, hpe, hcond⟩ := hmatch
      rw [Bool.and_eq_true, beq_iff_eq] at hcond
      exact Or.inr ⟨qe, hqe, pe, hpe, hcond.1, hcond.2⟩
  · rintro (⟨qe, hqe, hand⟩ | ⟨qe, hqe, pe, hpe, hmk, hbef⟩)
    · exact ⟨qe, hqe, Or.inl hand⟩
    · refine ⟨qe, hqe, Or.inr ?_⟩
      rw [List.any_eq_true]
      exact ⟨pe, hpe, by rw [Bool.and_eq_true, beq_iff_eq]; exact ⟨hmk, hbef⟩⟩

/-- C5.  The element walk of `ParsedProjection::make` rejects any
projection holding two non-`_id` elements with boolean/number values of
opposite truthiness (every `ProjError` is a `BadValue` status), a falsy
`_id` never participates (it only clears `includeID`), and concretely
`{a:1, b:0}` fails with *mixed inclusion/exclusion* while `{a:1, _id:0}`
is accepted with required fields `["a"]`. -/
theorem mixed_inclusion_exclusion_rejected :
    (∀ (spec query : BSONObj) (n1 n2 : String) (v1 v2 : BSONValue),
        (n1, v1) ∈ spec → (n2, v2) ∈ spec →
        n1 ≠ "_id" → n2 ≠ "_id" →
        (isNumber v1 || isBoolean v1) = true → (isNumber v2 || isBoolean v2) = true →
        trueValue v1 ≠ trueValue v2 →
        ∃ e, ParsedProjection.make spec query = .error e) ∧
    (∀ (spec query : BSONObj) (pp : ParsedProjection) (v : BSONValue),
        ParsedProjection.make spec query = .ok pp →
        ("_id", v) ∈ spec → trueValue v = false → pp.includeID = false) ∧
    ParsedProjection.make [("a", .numv 1), ("b", .numv 0)] [] =
      .error .mixedInclusionExclusion ∧
    ParsedProjection.make [("a", .numv 1), ("_id", .numv 0)] [] =
      .ok ⟨[("a", .numv 1), ("_id", .numv 0)], false, ["a"], .normal, false⟩ := by
  refine ⟨?_, ?_, by rfl, by rfl⟩
  · intro spec query n1 n2 v1 v2 hm1 hm2 hn1 hn2 hs1 hs2 hne
    cases hw : walkElems initWalkState spec with
    | error e => exact ⟨e, make_walk_error hw⟩
    | ok st =>
      exfalso
      refine hne (walkElems_rel_pair spec initWalkState st hw n1 v1 n2 v2 hm1 hm2 ?_ ?_)
      · unfold polarityRelevant isObj
        cases v1 <;> simp_all [isNumber, isBoolean]
      · unfold polarityRelevant isObj
        cases v2 <;> simp_all [isNumber, isBoolean]
  · intro spec query pp v h hm htv
    obtain ⟨st, hw, _, hID, _⟩ := make_ok_inv h
    rw [hID, walkElems_includeID spec initWalkState st hw]
    have : spec.any (fun p => p.1 == "_id" && !trueValue p.2) = true := by
      rw [List.any_eq_true]
      exact ⟨("_id", v), hm, by simp [htv]⟩
    rw [this]
    simp

/-- Witness for C5: the universally quantified rejection applied to the
concrete projection `{a:1, b:0}`. -/
theorem mixed_inclusion_exclusion_rejected_witness :
    ∃ e, ParsedProjection.make [("a", BSONValue.numv 1), ("b", BSONValue.numv 0)] [] =
      .error e :=
  mixed_inclusion_exclusion_rejected.1
    [("a", BSONValue.numv 1), ("b", BSONValue.numv 0)] [] "a" "b"
    (BSONValue.numv 1) (BSONValue.numv 0)
    (by decide) (by decide) (by decide) (by decide) (by decide) (by decide) (by decide)

/-- C9.  A truthy `_id` element takes part in the inclusion/exclusion
polarity check exactly like any other field: together with a falsy
non-`_id` element (in either order) it makes `ParsedProjection::make`
fail, and `{a:0, _id:1}` concretely fails with *mixed
inclusion/exclusion*.  Only a falsy `_id` is exempt. -/
theorem truthy_id_participates_in_polarity :
    (∀ (spec query : BSONObj) (n1 : String) (v1 v2 : BSONValue),
        (n1, v1) ∈ spec → n1 ≠ "_id" →
        (isNumber v1 || isBoolean v1) = true → trueValue v1 = false →
        ("_id", v2) ∈ spec →
        (isNumber v2 || isBoolean v2) = true → trueValue v2 = true →
        ∃ e, ParsedProjection.make spec query = .error e) ∧
    ParsedProjection.make [("a", .numv 0), ("_id", .numv 1)] [] =
      .error .mixedInclusionExclusion ∧
    ParsedProjection.make [("_id", .numv 1), ("a", .numv 0)] [] =
      .error .mixedInclusionExclusion := by
  refine ⟨?_, by rfl, by rfl⟩
  intro spec query n1 v1 v2 hm1 hn1 hs1 hf1 hm2 hs2 ht2
  cases hw : walkElems initWalkState spec with
  | error e => exact ⟨e, make_walk_error hw⟩
  | ok st =>
    exfalso
    have heq := walkElems_rel_pair spec initWalkState st hw n1 v1 "_id" v2 hm1 hm2 ?_ ?_
    · rw [hf1, ht2] at heq; cases heq
    · unfold polarityRelevant isObj
      cases v1 <;> simp_all [isNumber, isBoolean]
    · unfold polarityRelevant isObj
      cases v2 <;> simp_all [isNumber, isBoolean]

/-- C6.  For a projection containing a positional marker that passes the
element walk, `ParsedProjection::make` succeeds exactly when some
top-level query field is named `$and` (the check is waived) or shares its
pre-dot prefix with a positional projection field; otherwise it fails
with *positional does not match query*. -/
theorem positional_requires_query_match
    (spec query : BSONObj) (st : WalkState) (n0 : String) (v0 : BSONValue)
    (hw : walkElems initWalkState spec = .ok st)
    (hmem : (n0, v0) ∈ spec) (hmk : strContainsSub n0 ".$" = true) :
    (((∃ qe ∈ query, qe.1 = "$and") ∨
        (∃ qe ∈ query, ∃ pe ∈ spec, strContainsSub pe.1 ".$" = true ∧
          strBefore qe.1 '.' = strBefore pe.1 '.')) →
      ∃ pp, ParsedProjection.make spec query = .ok pp) ∧
    (¬((∃ qe ∈ query, qe.1 = "$and") ∨
        (∃ qe ∈ query, ∃ pe ∈ spec, strContainsSub pe.1 ".$" = true ∧
          strBefore qe.1 '.' = strBefore pe.1 '.')) →
      ParsedProjection.make spec query = .error .positionalDoesNotMatchQuery) := by
  have hpos : st.arrayOpType = .positional :=
    walkElems_marker_positional spec initWalkState st n0 v0 hw hmem hmk
  constructor
  · intro hcond
    have hv : validatePositional spec query = true := (validatePositional_spec spec query).mpr hcond
    cases hmake : ParsedProjection.make spec query with
    | ok pp => exact ⟨pp, rfl⟩
    | error e =>
      exfalso
      unfold ParsedProjection.make at hmake
      rw [hw] at hmake
      simp only [hpos, hv] at hmake
      simp at hmake
  · intro hcond
    have hv : validatePositional spec query = false := by
      cases hvv : validatePositional spec query with
      | true => exact absurd ((validatePositional_spec spec query).mp hvv) hcond
      | false => rfl
    unfold ParsedProjection.make
    rw [hw]
    simp only [hpos, hv]
    simp

/-- Witness for C6: the positional projection `{"a.$": 1}` against query
`{a: 5}` is accepted (matching pre-dot prefix), by the theorem itself. -/
theorem positional_requires_query_match_witness :
    ∃ pp, ParsedProjection.make [("a.$", BSONValue.numv 1)] [("a", BSONValue.numv 5)] =
      .ok pp :=
  (positional_requires_query_match [("a.$", BSONValue.numv 1)] [("a", BSONValue.numv 5)]
      ⟨some true, false, false, true, true, .positional⟩ "a.$" (BSONValue.numv 1)
      (by rfl) (by simp) (by rfl)).1
    (Or.inr ⟨("a", BSONValue.numv 5), by simp,
      ("a.$", BSONValue.numv 1), by simp, by rfl, by rfl⟩)


theorem count_fst_truthy (l : BSONObj) (s : String) :
    ((l.filter (fun p => trueValue p.2)).map (fun p => p.1)).count s =
      ((l.filter (fun p => p.1 == s)).filter (fun p => trueValue p.2)).length := by
  induction l with
  | nil => simp
  | cons p rest ih =>
    by_cases h1 : trueValue p.2 = true <;> by_cases h2 : p.1 = s <;>
      simp_all [List.count_cons, List.filter_cons]

/-- Counterexample to C10: the projection `{_id:0, _id:1}` (duplicate
field names are legal BSON) is accepted as coverable and explicitly lists
`_id` with a truthy value, yet its required-fields list holds `"_id"`
only once, because the falsy duplicate cleared `includeID`. -/
theorem duplicate_id_required_fields_counterexample :
    ParsedProjection.make [("_id", BSONValue.numv 0), ("_id", BSONValue.numv 1)] [] =
      .ok ⟨[("_id", BSONValue.numv 0), ("_id", BSONValue.numv 1)],
           false, ["_id"], .normal, false⟩ ∧
    (["_id"] : List String).count "_id" = 1 := by
  exact ⟨rfl, rfl⟩

/-- C10 (amended).  For every accepted coverable projection whose only
`_id` element is a single truthy one, the emitted `requiredFields` list
holds `"_id"` exactly twice: once from the retained-`_id` rule and once
from the per-element iteration. -/
theorem coverable_truthy_id_twice
    (spec query : BSONObj) (pp : ParsedProjection) (v : BSONValue)
    (h : ParsedProjection.make spec query = .ok pp)
    (hcov : pp.requiresDocument = false)
    (hid : spec.filter (fun p => p.1 == "_id") = [("_id", v)])
    (htv : trueValue v = true) :
    pp.requiredFields.count "_id" = 2 := by
  obtain ⟨st, hw, _, hID, _, hRF⟩ := make_ok_inv h
  have hany : spec.any (fun p => p.1 == "_id" && !trueValue p.2) = false := by
    cases hc : spec.any (fun p => p.1 == "_id" && !trueValue p.2) with
    | false => rfl
    | true =>
      exfalso
      rw [List.any_eq_true] at hc
      obtain ⟨p, hp, hcond⟩ := hc
      rw [Bool.and_eq_true] at hcond
      have hpmem : p ∈ spec.filter (fun p => p.1 == "_id") :=
        List.mem_filter.mpr ⟨hp, hcond.1⟩
      rw [hid, List.mem_singleton] at hpmem
      subst hpmem
      simp [htv] at hcond
  have hIDtrue : st.includeID = true := by
    rw [walkElems_includeID spec initWalkState st hw, hany]
    rfl
  rw [hRF, hcov]
  simp only [if_false, Bool.false_eq_true]
  rw [hIDtrue]
  simp only [if_true]
  rw [List.count_append, count_fst_truthy spec "_id", hid]
  simp [htv, List.count_singleton]

/-- Witness for the amended C10: `{_id:1, a:1}` yields required fields
`["_id", "_id", "a"]`, counting `"_id"` twice, via the theorem itself. -/
theorem coverable_truthy_id_twice_witness :
    (ParsedProjection.make [("_id", BSONValue.numv 1), ("a", BSONValue.numv 1)] [] =
      .ok ⟨[("_id", BSONValue.numv 1), ("a", BSONValue.numv 1)],
           false, ["_id", "_id", "a"], .normal, true⟩) ∧
    (["_id", "_id", "a"] : List String).count "_id" = 2 := by
  constructor
  · rfl
  · have := coverable_truthy_id_twice
      [("_id", BSONValue.numv 1), ("a", BSONValue.numv 1)] []
      ⟨[("_id", BSONValue.numv 1), ("a", BSONValue.numv 1)],
        false, ["_id", "_id", "a"], .normal, true⟩ (BSONValue.numv 1)
      (by rfl) (by rfl) (by rfl) (by rfl)
    exact this


--
-- Solution trees and the count / distinct rewrites (`get_runner.cpp`).
--

/-- Key pattern of an index: the ordered (field name, direction) pairs of
a `BSONObj` such as `{a: 1, b: -1}`. -/
abbrev KeyPattern := List (String × Int)

/-- Placeholder for the repository's `MatchExpression` filter trees: the
verified code only ever tests a filter for presence
(`NULL != filter.get()`). -/
inductive MatchExpression where
  | expr
  deriving Repr, DecidableEq

/-- One interval of an index bound (the `Interval` class): start and end
values with their inclusivity flags.  `end` is a Lean keyword, so the end
value is named `end_`. -/
structure Interval where
  start : BSONValue
  startInclusive : Bool
  end_ : BSONValue
  endInclusive : Bool
  deriving Repr, DecidableEq

/-- Modelled from the spec: `Interval::isPoint()` (the `Interval` class
sits outside this repository slice) — both ends inclusive and equal
values. -/
def Interval.isPoint (iv : Interval) : Bool :=
  iv.startInclusive && iv.endInclusive && bvalEq iv.start iv.end_

/-- Modelled from the spec: `Interval::equals` — component-wise equality
of the two bounds and their inclusivities. -/
def Interval.equals (a b : Interval) : Bool :=
  bvalEq a.start b.start && (a.startInclusive == b.startInclusive) &&
    bvalEq a.end_ b.end_ && (a.endInclusive == b.endInclusive)

/-- Modelled from the spec: `IndexBoundsBuilder::allValues()` — the
ascending full-range ("all values") interval `[MinKey, MaxKey]`, both
ends inclusive. -/
def allValuesInterval : Interval :=
  ⟨.minKey, true, .maxKey, true⟩

/-- Modelled from the spec: the reverse (`Interval::reverse()`) of the
full-range interval, `[MaxKey, MinKey]`, both ends inclusive. -/
def maxMinInterval : Interval :=
  ⟨.maxKey, true, .minKey, true⟩

/-- Ordered list of intervals for one indexed field
(`OrderedIntervalList`). -/
structure OrderedIntervalList where
  name : String
  intervals : List Interval
  deriving Repr, DecidableEq

/-- Index bounds (`IndexBounds`): one interval list per key-pattern field
plus the `isSimpleRange` marker. -/
structure IndexBounds where
  fields : List OrderedIntervalList
  isSimpleRange : Bool
  deriving Repr, DecidableEq

/-- Query solution nodes (`QuerySolutionNode`), restricted to the node
kinds the verified rewrites inspect or build; `other` stands for every
remaining stage type (sort, skip, limit, ...). -/
inductive QuerySolutionNode where
  | collscan (filter : Option MatchExpression)
  | fetch (filter : Option MatchExpression) (children : List QuerySolutionNode)
  | ixscan (filter : Option MatchExpression) (indexKeyPattern : KeyPattern)
      (direction : Int) (bounds : IndexBounds)
  | projection (children : List QuerySolutionNode)
  | count (indexKeyPattern : KeyPattern) (startKey : List BSONValue)
      (startKeyInclusive : Bool) (endKey : List BSONValue) (endKeyInclusive : Bool)
  | distinct (indexKeyPattern : KeyPattern) (direction : Int) (bounds : IndexBounds)
      (fieldNo : Nat)
  | other
  deriving Repr

/-- A query solution (`QuerySolution`): the root of the owned node tree,
the blocking-sort marker consulted by `getRunner`, and the
`indexFilterApplied` bit of the optional `SolutionCacheData`. -/
structure QuerySolution where
  root : QuerySolutionNode
  hasSortStage : Bool := false
  cacheData : Option Bool := none
  deriving Repr

/-- Phase 1 of `isSingleInterval`: consume the leading point intervals,
collecting their start and end values. -/
def skipPointPrefix : List OrderedIntervalList →
    (List BSONValue × List BSONValue × List OrderedIntervalList)
  | [] => ([], [], [])
  | oil :: rest =>
    match oil.intervals with
    | [iv] =>
      if iv.isPoint then
        let (s, e, r) := skipPointPrefix rest
        (iv.start :: s, iv.end_ :: e, r)
      else ([], [], oil :: rest)
    | _ => ([], [], oil :: rest)

/-- Phase 3 of `isSingleInterval`: after the single non-point interval
only "all values" interval lists may follow; each appends a
`MinKey`/`MaxKey` sentinel chosen to align with the inclusivities already
decided by the non-point interval (symmetric for the ascending and the
descending full range). -/
def allValuesSuffix (sInc eInc : Bool) :
    List OrderedIntervalList → Option (List BSONValue × List BSONValue)
  | [] => some ([], [])
  | oil :: rest =>
    match oil.intervals with
    | [iv] =>
      if iv.equals allValuesInterval then
        match allValuesSuffix sInc eInc rest with
        | some (ss, es) =>
          some ((if sInc then BSONValue.minKey else BSONValue.maxKey) :: ss,
                (if eInc then BSONValue.maxKey else BSONValue.minKey) :: es)
        | none => none
      else if iv.equals maxMinInterval then
        match allValuesSuffix sInc eInc rest with
        | some (ss, es) =>
          some ((if sInc then BSONValue.maxKey else BSONValue.minKey) :: ss,
                (if eInc then BSONValue.minKey else BSONValue.maxKey) :: es)
        | none => none
      else none
    | _ => none

/-- Embedding of `isSingleInterval(bounds, &startKey, &startKeyInclusive,
&endKey, &endKeyInclusive)`: `some` of the four output parameters exactly
when the C++ function returns true. -/
def isSingleInterval (fields : List OrderedIntervalList) :
    Option (List BSONValue × Bool × List BSONValue × Bool) :=
  match skipPointPrefix fields with
  | (spts, epts, rest) =>
    match rest with
    | [] => some (spts, true, epts, true)
    | oil :: rest2 =>
      match oil.intervals with
      | [iv] =>
        match allValuesSuffix iv.startInclusive iv.endInclusive rest2 with
        | some (ss, es) =>
          some (spts ++ iv.start :: ss, iv.startInclusive,
                epts ++ iv.end_ :: es, iv.endInclusive)
        | none => none
      | _ => none

/-- Embedding of `turnIxscanIntoCount(soln)`: the returned boolean paired
with the solution, whose root has been replaced by a `CountNode` when the
rewrite applies (the C++ mutates `soln->root` in place).  The C++ reads
`root->children[0]` unconditionally; a FETCH with no children does not
arise there, and is mapped to a failed rewrite here. -/
def turnIxscanIntoCount (soln : QuerySolution) : Bool × QuerySolution :=
  match soln.root with
  | .fetch filter children =>
    if filter.isSome then (false, soln)
    else
      match children with
      | .ixscan ifilter kp _ bounds :: _ =>
        if ifilter.isSome || bounds.isSimpleRange then (false, soln)
        else
          match isSingleInterval bounds.fields with
          | some (sk, sInc, ek, eInc) =>
            (true, { soln with root := .count kp sk sInc ek eInc })
          | none => (false, soln)
      | _ => (false, soln)
  | _ => (false, soln)

/-- The `BSONObjIterator` loop of `turnIxscanIntoDistinctIxscan` that
computes `dn->fieldNo`: the position of the first key-pattern field whose
name equals `field`; when no field matches, the counter has been bumped
past every field and equals the number of key-pattern fields. -/
def distinctFieldNo (field : String) : KeyPattern → Nat
  | [] => 0
  | (n, _) :: rest => if n = field then 0 else distinctFieldNo field rest + 1

/-- Embedding of `turnIxscanIntoDistinctIxscan(soln, field)`: the returned
boolean paired with the solution; on success the IXSCAN child of the
PROJECTION root is replaced by a `DistinctNode` carrying the same key
pattern, direction and bounds. -/
def turnIxscanIntoDistinctIxscan (soln : QuerySolution) (field : String) :
    Bool × QuerySolution :=
  match soln.root with
  | .projection children =>
    match children with
    | .ixscan ifilter kp dir bounds :: restChildren =>
      if ifilter.isSome then (false, soln)
      else if bounds.isSimpleRange then (false, soln)
      else
        (true, { soln with
          root :=
            QuerySolutionNode.projection
              (QuerySolutionNode.distinct kp dir bounds (distinctFieldNo field kp)
                :: restChildren) })
    | _ => (false, soln)
  | _ => (false, soln)


/-- Start values of the single interval of each bound field, in field
order; on all-point bounds this is the tuple of the point values. -/
def pointStarts : List OrderedIntervalList → List BSONValue
  | [] => []
  | oil :: rest => oil.intervals.map Interval.start ++ pointStarts rest

theorem skipPointPrefix_all_points (fields : List OrderedIntervalList)
    (hpts : ∀ oil ∈ fields, ∃ iv, oil.intervals = [iv] ∧ iv.isPoint = true) :
    skipPointPrefix fields = (pointStarts fields, pointStarts fields, []) := by
  induction fields with
  | nil => simp [skipPointPrefix, pointStarts]
  | cons oil rest ih =>
    obtain ⟨iv, hoil, hpt⟩ := hpts oil (by simp)
    have heq : iv.start = iv.end_ := by
      unfold Interval.isPoint at hpt
      rw [Bool.and_eq_true, Bool.and_eq_true] at hpt
      exact (bvalEq_iff iv.start iv.end_).mp hpt.2
    have ihh := ih (fun o ho => hpts o (by simp [ho]))
    unfold skipPointPrefix
    rw [hoil]
    simp [hpt, ihh, pointStarts, hoil, heq]

/-- C3.  A FETCH with no filter over a sole IXSCAN with no filter and
non-simple-range bounds, every field of which carries exactly one point
interval, is rewritten by `turnIxscanIntoCount` into a `Count` root whose
start and end keys are both the tuple of the point values (in field
order), inclusive on both sides. -/
theorem count_rewrite_all_points
    (soln : QuerySolution) (kp : KeyPattern) (dir : Int) (bounds : IndexBounds)
    (hroot : soln.root = .fetch none [.ixscan none kp dir bounds])
    (hsr : bounds.isSimpleRange = false)
    (hpts : ∀ oil ∈ bounds.fields, ∃ iv, oil.intervals = [iv] ∧ iv.isPoint = true) :
    turnIxscanIntoCount soln =
      (true, { soln with
        root := QuerySolutionNode.count kp (pointStarts bounds.fields) true
          (pointStarts bounds.fields) true }) := by
  have hsi : isSingleInterval bounds.fields =
      some (pointStarts bounds.fields, true, pointStarts bounds.fields, true) := by
    unfold isSingleInterval
    rw [skipPointPrefix_all_points bounds.fields hpts]
  unfold turnIxscanIntoCount
  rw [hroot]
  simp [hsi, hsr]

/-- Witness for C3: the two-field point bounds `a:[[4,4]], b:[["q","q"]]`
produce a `Count` node over the key tuple `(4, "q")` on both sides. -/
theorem count_rewrite_all_points_witness :
    turnIxscanIntoCount
      ⟨.fetch none [.ixscan none [("a", 1), ("b", 1)] 1
          ⟨[⟨"a", [⟨.numv 4, true, .numv 4, true⟩]⟩,
            ⟨"b", [⟨.strv "q", true, .strv "q", true⟩]⟩], false⟩],
        false, none⟩ =
      (true, ⟨.count [("a", 1), ("b", 1)]
          [.numv 4, .strv "q"] true [.numv 4, .strv "q"] true, false, none⟩) := by
  have hp : ∀ oil ∈ [(⟨"a", [⟨.numv 4, true, .numv 4, true⟩]⟩ : OrderedIntervalList),
      ⟨"b", [⟨.strv "q", true, .strv "q", true⟩]⟩],
      ∃ iv, oil.intervals = [iv] ∧ iv.isPoint = true := by
    intro oil hoil
    rcases List.mem_cons.mp hoil with h | h2
    · subst h; exact ⟨_, rfl, rfl⟩
    · rcases List.mem_singleton.mp h2 with rfl
      exact ⟨_, rfl, rfl⟩
  exact count_rewrite_all_points
    ⟨.fetch none [.ixscan none [("a", 1), ("b", 1)] 1
        ⟨[⟨"a", [⟨.numv 4, true, .numv 4, true⟩]⟩,
          ⟨"b", [⟨.strv "q", true, .strv "q", true⟩]⟩], false⟩],
      false, none⟩
    [("a", 1), ("b", 1)] 1
    ⟨[⟨"a", [⟨.numv 4, true, .numv 4, true⟩]⟩,
      ⟨"b", [⟨.strv "q", true, .strv "q", true⟩]⟩], false⟩
    rfl rfl hp

theorem turnIxscanIntoCount_count_root {soln : QuerySolution}
    {kp : KeyPattern} {sk : List BSONValue} {si : Bool} {ek : List BSONValue}
    {ei : Bool} (h : soln.root = .count kp sk si ek ei) :
    turnIxscanIntoCount soln = (false, soln) := by
  unfold turnIxscanIntoCount
  rw [h]

theorem turnIxscanIntoCount_true_root {soln : QuerySolution}
    (h : (turnIxscanIntoCount soln).1 = true) :
    ∃ kp sk si ek ei, (turnIxscanIntoCount soln).2.root =
      QuerySolutionNode.count kp sk si ek ei := by
  unfold turnIxscanIntoCount at h ⊢
  repeat' split at h
  all_goals simp_all

/-- C8.  The count rewrite is a no-op on its own output: once
`turnIxscanIntoCount` has returned true (replacing the root by a `Count`
node), a second application returns false and leaves the solution tree
unchanged. -/
theorem count_rewrite_no_op_twice
    (soln : QuerySolution) (h : (turnIxscanIntoCount soln).1 = true) :
    turnIxscanIntoCount (turnIxscanIntoCount soln).2 =
      (false, (turnIxscanIntoCount soln).2) := by
  obtain ⟨kp, sk, si, ek, ei, hroot⟩ := turnIxscanIntoCount_true_root h
  exact turnIxscanIntoCount_count_root hroot

/-- Witness for C8: the rewrite applies to the FETCH over an IXSCAN with
bounds `a:(5, MaxKey]`, and the theorem then shows the second pass is a
no-op on the rewritten solution. -/
theorem count_rewrite_no_op_twice_witness :
    turnIxscanIntoCount
      (turnIxscanIntoCount
        ⟨.fetch none [.ixscan none [("a", 1)] 1
            ⟨[⟨"a", [⟨.numv 5, false, .maxKey, true⟩]⟩], false⟩], false, none⟩).2 =
      (false,
        (turnIxscanIntoCount
          ⟨.fetch none [.ixscan none [("a", 1)] 1
              ⟨[⟨"a", [⟨.numv 5, false, .maxKey, true⟩]⟩], false⟩], false, none⟩).2) :=
  count_rewrite_no_op_twice
    ⟨.fetch none [.ixscan none [("a", 1)] 1
        ⟨[⟨"a", [⟨.numv 5, false, .maxKey, true⟩]⟩], false⟩], false, none⟩
    (by rfl)

theorem distinctFieldNo_le (field : String) :
    ∀ (kp : KeyPattern) (i : Fin kp.length), (kp.get i).1 = field →
      distinctFieldNo field kp ≤ i
  | (n, d) :: rest, ⟨0, _⟩, h => by
      simp only [List.get] at h
      simp [distinctFieldNo, h]
  | (n, d) :: rest, ⟨i + 1, hi⟩, h => by
      unfold distinctFieldNo
      split
      · omega
      · have := distinctFieldNo_le field rest ⟨i, by simpa using hi⟩ h
        simp only [Fin.val_mk] at this ⊢
        omega

theorem distinctFieldNo_hit (field : String) :
    ∀ (kp : KeyPattern) (h : distinctFieldNo field kp < kp.length),
      (kp.get ⟨distinctFieldNo field kp, h⟩).1 = field
  | [], h => by simp [distinctFieldNo] at h
  | (n, d) :: rest, h => by
      by_cases hn : n = field
      · simp [distinctFieldNo, hn]
      · have h2 : distinctFieldNo field rest < rest.length := by
          simp [distinctFieldNo, hn] at h
          omega
        have := distinctFieldNo_hit field rest h2
        simp [distinctFieldNo, hn]
        exact this

theorem distinctFieldNo_miss (field : String) :
    ∀ kp : KeyPattern, (∀ p ∈ kp, p.1 ≠ field) → distinctFieldNo field kp = kp.length
  | [], _ => rfl
  | (n, d) :: rest, h => by
      have hn : n ≠ field := h (n, d) (by simp)
      simp [distinctFieldNo, hn, distinctFieldNo_miss field rest
        (fun p hp => h p (by simp [hp]))]

/-- Counterexample to C1: on the PROJECTION-over-IXSCAN solution with key
pattern `{a:1}` and target field `"b"` (no key-pattern field matches),
`turnIxscanIntoDistinctIxscan` returns true but builds a `Distinct` node
with `fieldNo = 1` (the number of key-pattern fields), not `0` as the
claim states. -/
theorem distinct_fieldNo_counterexample :
    turnIxscanIntoDistinctIxscan
        ⟨.projection [.ixscan none [("a", 1)] 1
            ⟨[⟨"a", [⟨.numv 5, false, .maxKey, true⟩]⟩], false⟩], false, none⟩ "b" =
      (true, ⟨.projection [.distinct [("a", 1)] 1
          ⟨[⟨"a", [⟨.numv 5, false, .maxKey, true⟩]⟩], false⟩ 1], false, none⟩) ∧
    (1 : Nat) ≠ 0 :=
  ⟨rfl, by decide⟩

/-- C1 (amended).  On a PROJECTION root over an IXSCAN child with no
filter and non-simple-range bounds, `turnIxscanIntoDistinctIxscan`
returns true and swaps the IXSCAN for a `Distinct` node with the same key
pattern, direction and bounds, whose `fieldNo` is the position of the
first key-pattern field named like the target; when no key-pattern field
matches, `fieldNo` equals the number of key-pattern fields. -/
theorem distinct_rewrite_shape
    (soln : QuerySolution) (field : String) (kp : KeyPattern) (dir : Int)
    (bounds : IndexBounds) (rest : List QuerySolutionNode)
    (hroot : soln.root = .projection (.ixscan none kp dir bounds :: rest))
    (hsr : bounds.isSimpleRange = false) :
    turnIxscanIntoDistinctIxscan soln field =
      (true, { soln with
        root :=
          QuerySolutionNode.projection
            (QuerySolutionNode.distinct kp dir bounds (distinctFieldNo field kp)
              :: rest) }) ∧
    (∀ i : Fin kp.length, (kp.get i).1 = field → distinctFieldNo field kp ≤ i) ∧
    (∀ h : distinctFieldNo field kp < kp.length,
        (kp.get ⟨distinctFieldNo field kp, h⟩).1 = field) ∧
    ((∀ p ∈ kp, p.1 ≠ field) → distinctFieldNo field kp = kp.length) := by
  refine ⟨?_, distinctFieldNo_le field kp, distinctFieldNo_hit field kp,
    distinctFieldNo_miss field kp⟩
  unfold turnIxscanIntoDistinctIxscan
  rw [hroot]
  simp [hsr]

/-- Witness for the amended C1: key pattern `{x:1, y:1}` and target field
`"y"` give a `Distinct` node with `fieldNo = 1`, via the theorem. -/
theorem distinct_rewrite_shape_witness :
    turnIxscanIntoDistinctIxscan
        ⟨.projection [.ixscan none [("x", 1), ("y", 1)] 1
            ⟨[⟨"x", [⟨.numv 3, true, .numv 3, true⟩]⟩,
              ⟨"y", [allValuesInterval]⟩], false⟩], false, none⟩ "y" =
      (true, ⟨.projection [.distinct [("x", 1), ("y", 1)] 1
          ⟨[⟨"x", [⟨.numv 3, true, .numv 3, true⟩]⟩,
            ⟨"y", [allValuesInterval]⟩], false⟩ 1], false, none⟩) :=
  (distinct_rewrite_shape
      ⟨.projection [.ixscan none [("x", 1), ("y", 1)] 1
          ⟨[⟨"x", [⟨.numv 3, true, .numv 3, true⟩]⟩,
            ⟨"y", [allValuesInterval]⟩], false⟩], false, none⟩
      "y" [("x", 1), ("y", 1)] 1
      ⟨[⟨"x", [⟨.numv 3, true, .numv 3, true⟩]⟩,
        ⟨"y", [allValuesInterval]⟩], false⟩
      [] rfl rfl).1


/-- Witness for C9: the universally quantified rejection applied to the
concrete projection `{a:0, _id:1}`. -/
theorem truthy_id_participates_in_polarity_witness :
    ∃ e, ParsedProjection.make [("a", BSONValue.numv 0), ("_id", BSONValue.numv 1)] [] =
      .error e :=
  truthy_id_participates_in_polarity.1
    [("a", BSONValue.numv 0), ("_id", BSONValue.numv 1)] [] "a"
    (BSONValue.numv 0) (BSONValue.numv 1)
    (by decide) (by decide) (by decide) (by decide) (by decide) (by decide) (by decide)

--
-- The `getRunner` entry point (`get_runner.cpp`).
--

/-- One catalog index entry (`IndexEntry`), as filled from the
`IndexDescriptor` during params assembly. -/
structure IndexEntry where
  keyPattern : KeyPattern
  multikey : Bool
  sparse : Bool
  name : String
  infoObj : BSONObj
  deriving Repr, DecidableEq

/-- The `QueryPlannerParams::Options` bits consumed by this slice,
modelled as named booleans rather than a machine bitset. -/
structure PlannerOptions where
  noTableScan : Bool := false
  includeCollscan : Bool := false
  includeShardFilter : Bool := false
  indexIntersection : Bool := false
  keepMutations : Bool := false
  privateIsCount : Bool := false
  deriving Repr, DecidableEq

/-- Embedding of `QueryPlannerParams`. -/
structure QueryPlannerParams where
  indices : List IndexEntry := []
  options : PlannerOptions := {}
  shardKey : Option KeyPattern := none
  indexFiltersApplied : Bool := false
  deriving Repr, DecidableEq

/-- The slice of `LiteParsedQuery` that `getRunner` consults: the filter
and sort documents, the explain / disk-loc / tailable flags and the
numeric limit (`getNumToReturn`). -/
structure LiteParsedQuery where
  filter : BSONObj
  sort : BSONObj
  isExplain : Bool
  showDiskLoc : Bool
  tailable : Bool
  numToReturn : Int
  deriving Repr, DecidableEq

/-- Embedding of `CanonicalQuery`: the namespace and the parsed query. -/
structure CanonicalQuery where
  ns : String
  parsed : LiteParsedQuery
  deriving Repr, DecidableEq

/-- Modelled from the spec: `CanonicalQuery::isSimpleIdQuery` (defined in
`canonical_query.cpp`, outside this repository slice) — a single field
named `_id` whose value is a simple scalar, or an object whose first
field's name does not begin with `$`. -/
def isSimpleIdQuery (filter : BSONObj) : Bool :=
  match filter with
  | [("_id", v)] =>
    match v with
    | .objv ((n2, _) :: _) => !n2.startsWith "$"
    | .objv [] => false
    | .arrayv _ => false
    | _ => true
  | _ => false

/-- Embedding of `canUseIDHack(query)`. -/
def canUseIDHack (query : CanonicalQuery) : Bool :=
  !query.parsed.isExplain && !query.parsed.showDiskLoc &&
    isSimpleIdQuery query.parsed.filter && !query.parsed.tailable

/-- Embedding of `filterAllowedIndexEntries`: keep the entries whose key
pattern occurs (by `woCompare` equality) in the allowed list, preserving
catalog order. -/
def filterAllowedIndexEntries (allowed : List KeyPattern)
    (indexEntries : List IndexEntry) : List IndexEntry :=
  indexEntries.filter (fun e => allowed.any (fun kp => kp == e.keyPattern))

/-- The slice of `Collection` that `getRunner` consults: capped-ness, the
presence of an `_id` index, the ready index-catalog entries, and the
allowed-index list from the per-collection query settings when one
matches this query's shape. -/
structure Collection where
  capped : Bool
  hasIdIndex : Bool
  indexes : List IndexEntry
  allowedIndices : Option (List KeyPattern)
  deriving Repr, DecidableEq

/-- A cached solution handed back by the plan cache; opaque to this
slice. -/
structure CachedSolution where
  id : Nat
  deriving Repr, DecidableEq

/-- The runner variants `getRunner` can build. -/
inductive Runner where
  | eof (ns : String)
  | idhack
  | singleSolution (soln : QuerySolution)
  | cachedPlan (main : QuerySolution) (backup : Option QuerySolution)
  | multiPlan (solns : List QuerySolution)
  deriving Repr

/-- Failure cases of `getRunner`; each stands for a `BadValue` status with
the respective message. -/
inductive GetRunnerError where
  | tailableOnNonCapped
  | invalidTailableSort
  | plannerFailed (msg : String)
  | noQuerySolutions
  deriving Repr, DecidableEq

/-- Environment of one `getRunner(collection, canonicalQuery, options)`
invocation: the target collection (absent yields an EOF runner), the
canonical query, the caller's planner options, the process-wide toggles
read during params assembly, the sharding metadata, and the plan-cache /
hydration / planner collaborators as oracles fixed for the invocation. -/
structure GetRunnerEnv where
  collection : Option Collection
  query : CanonicalQuery
  plannerOptions : PlannerOptions
  noTableScanGlobal : Bool
  enableIndexIntersection : Bool
  shardMetadata : Option KeyPattern
  shouldCacheQuery : Bool
  cacheGet : Option CachedSolution
  planFromCache : QueryPlannerParams → CachedSolution →
    Except Unit (QuerySolution × Option QuerySolution)
  plan : QueryPlannerParams → Except String (List QuerySolution)

/-- Params assembly before the tailable check: the catalog iteration and
the allowed-index filter (which also sets `indexFiltersApplied`). -/
def buildPreTailableParams (coll : Collection) :
    QueryPlannerParams :=
  let indices := coll.indexes
  match coll.allowedIndices with
  | some allowed =>
    { indices := filterAllowedIndexEntries allowed indices
      indexFiltersApplied := true }
  | none => { indices := indices }

/-- The `{$natural: 1}` sort required of tailable cursors. -/
def naturalOneSort : BSONObj := [("$natural", BSONValue.numv 1)]

/-- The global no-table-scan policy: set `NO_TABLE_SCAN` unless the query
is empty, the namespace contains `.system.` or the namespace is under
`local.`. -/
def applyNoTableScanPolicy (env : GetRunnerEnv) (o : PlannerOptions) :
    PlannerOptions :=
  let ignore := env.query.parsed.filter.isEmpty ||
    strContainsSub env.query.ns ".system." ||
    "local.".toList.isPrefixOf env.query.ns.toList
  if env.noTableScanGlobal && !ignore then { o with noTableScan := true } else o

/-- Include the collection scan while table scans stay allowed. -/
def applyIncludeCollscan (o : PlannerOptions) : PlannerOptions :=
  if !o.noTableScan then { o with includeCollscan := true } else o

/-- The options processing of `getRunner`: seed the options from the
caller, apply the global no-table-scan policy, include the collscan while
table scans stay allowed, and — when a shard filter was requested —
either record the shard key pattern or strip the filter when sharding
metadata is absent. -/
def processOptions (env : GetRunnerEnv) (params : QueryPlannerParams) :
    QueryPlannerParams :=
  let o2 := applyIncludeCollscan (applyNoTableScanPolicy env env.plannerOptions)
  if o2.includeShardFilter then
    match env.shardMetadata with
    | some kp => { params with options := o2, shardKey := some kp }
    | none =>
      { params with options := { o2 with includeShardFilter := false } }
  else { params with options := o2 }

/-- The planner params in effect at the plan-cache gateway (the cache
lookup and the `planFromCache` hydration). -/
def paramsAtCacheGateway (env : GetRunnerEnv) (coll : Collection) :
    QueryPlannerParams :=
  processOptions env (buildPreTailableParams coll)

/-- The option additions applied after the cache gateway and before
`QueryPlanner::plan`: index intersection when globally enabled, then
`KEEP_MUTATIONS` unconditionally. -/
def paramsForPlanning (env : GetRunnerEnv) (params : QueryPlannerParams) :
    QueryPlannerParams :=
  let params1 := if env.enableIndexIntersection then
      { params with options := { params.options with indexIntersection := true } }
    else params
  { params1 with options := { params1.options with keepMutations := true } }

/-- The `PRIVATE_IS_COUNT` scan of `getRunner`: the first solution the
count rewrite accepts, already rewritten. -/
def tryCountHack : List QuerySolution → Option QuerySolution
  | [] => none
  | s :: rest =>
    let r := turnIxscanIntoCount s
    if r.1 then some r.2 else tryCountHack rest

/-- The cache-data marking applied as solutions go to the multi-plan
runner: record `indexFiltersApplied` into each solution's cache data when
it carries one. -/
def markCacheData (params : QueryPlannerParams) (solns : List QuerySolution) :
    List QuerySolution :=
  solns.map (fun s =>
    match s.cacheData with
    | some _ => { s with cacheData := some params.indexFiltersApplied }
    | none => s)

/-- The planning tail of `getRunner`: add the post-gateway options, run
the planner (surfacing its errors as BadValue), fail on zero solutions,
scan for the count hack under `PRIVATE_IS_COUNT`, then return the single
solution, the first non-blocking-sort solution under the
limit-with-sort rule, or a multi-plan runner over all solutions. -/
def planStage (env : GetRunnerEnv) (params0 : QueryPlannerParams) :
    Except GetRunnerError Runner :=
  let params := paramsForPlanning env params0
  match env.plan params with
  | .error msg => .error (.plannerFailed msg)
  | .ok solutions =>
    if solutions.isEmpty then .error .noQuerySolutions
    else
      match (if params.options.privateIsCount then tryCountHack solutions else none) with
      | some s => .ok (.singleSolution s)
      | none =>
        match solutions with
        | [s] => .ok (.singleSolution s)
        | _ =>
          match (if 0 < env.query.parsed.numToReturn ∧ env.query.parsed.sort ≠ [] then
              solutions.find? (fun s => !s.hasSortStage)
            else none) with
          | some s => .ok (.singleSolution s)
          | none => .ok (.multiPlan (markCacheData params solutions))

/-- The tail of the cache-hit path: the count rewrite under
`PRIVATE_IS_COUNT` (discarding the backup on success), else the
cached-plan runner holding the primary and the optional backup. -/
def countOrCachedPlan (params : QueryPlannerParams)
    (qs : QuerySolution) (backupQs : Option QuerySolution) :
    Except GetRunnerError Runner :=
  if params.options.privateIsCount then
    let r := turnIxscanIntoCount qs
    if r.1 then .ok (.singleSolution r.2)
    else .ok (.cachedPlan qs backupQs)
  else .ok (.cachedPlan qs backupQs)

/-- The plan-cache gateway of `getRunner`: on a cacheable query with a
cache hit, hydrate the cached solution; when hydration yields a backup
and the query has a positive numeric limit with a non-empty sort, run
the backup as a single-solution runner; otherwise hand over to
`countOrCachedPlan`; on hydration failure or a cache miss fall through
to full planning. -/
def cacheStage (env : GetRunnerEnv) (params : QueryPlannerParams) :
    Except GetRunnerError Runner :=
  match (if env.shouldCacheQuery then env.cacheGet else none) with
  | none => planStage env params
  | some cs =>
    match env.planFromCache params cs with
    | .error _ => planStage env params
    | .ok (qs, backupQs) =>
      match backupQs with
      | some bqs =>
        if 0 < env.query.parsed.numToReturn ∧ env.query.parsed.sort ≠ [] then
          .ok (.singleSolution bqs)
        else countOrCachedPlan params qs (some bqs)
      | none => countOrCachedPlan params qs none

/-- Embedding of the primary entry point `getRunner(collection,
canonicalQuery, out, plannerOptions)`. -/
def getRunner (env : GetRunnerEnv) : Except GetRunnerError Runner :=
  match env.collection with
  | none => .ok (.eof env.query.ns)
  | some coll =>
    if canUseIDHack env.query && coll.hasIdIndex then .ok .idhack
    else
      let params := buildPreTailableParams coll
      if env.query.parsed.tailable then
        if !coll.capped then .error .tailableOnNonCapped
        else if env.query.parsed.sort ≠ [] ∧ env.query.parsed.sort ≠ naturalOneSort then
          .error .invalidTailableSort
        else cacheStage env (processOptions env params)
      else cacheStage env (processOptions env params)


theorem canUseIDHack_tailable {query : CanonicalQuery}
    (ht : query.parsed.tailable = true) : canUseIDHack query = false := by
  unfold canUseIDHack
  simp [ht]

/-- C7.  A tailable query fails with BadValue on a non-capped collection;
on a capped collection it fails with BadValue when a non-empty sort other
than `{$natural: 1}` is present (in particular `{$natural: -1}`), and
proceeds past the tailable checks (into the cache gateway and planning)
when the sort is empty or equals `{$natural: 1}`. -/
theorem tailable_requires_capped_natural
    (env : GetRunnerEnv) (coll : Collection)
    (hc : env.collection = some coll)
    (ht : env.query.parsed.tailable = true) :
    (coll.capped = false → getRunner env = .error .tailableOnNonCapped) ∧
    (coll.capped = true → env.query.parsed.sort ≠ [] →
      env.query.parsed.sort ≠ naturalOneSort →
      getRunner env = .error .invalidTailableSort) ∧
    (coll.capped = true →
      (env.query.parsed.sort = [] ∨ env.query.parsed.sort = naturalOneSort) →
      getRunner env = cacheStage env (processOptions env (buildPreTailableParams coll))) := by
  have hid : (canUseIDHack env.query && coll.hasIdIndex) = false := by
    rw [canUseIDHack_tailable ht]
    rfl
  refine ⟨?_, ?_, ?_⟩
  · intro hcap
    unfold getRunner
    rw [hc]
    simp [hid, ht, hcap]
  · intro hcap hs1 hs2
    unfold getRunner
    rw [hc]
    simp [hid, ht, hcap, hs1, hs2]
  · intro hcap hs
    unfold getRunner
    rw [hc]
    rcases hs with hs | hs <;> simp [hid, ht, hcap, hs, naturalOneSort]

/-- A small concrete environment for exercising the tailable checks: the
given collection, a tailable query with the given sort, default options,
no cache hit, and a planner returning one trivial solution. -/
def tailableEnv (coll : Collection) (sort : BSONObj) : GetRunnerEnv where
  collection := some coll
  query := ⟨"test.c", ⟨[("a", BSONValue.numv 1)], sort, false, false, true, 0⟩⟩
  plannerOptions := {}
  noTableScanGlobal := false
  enableIndexIntersection := false
  shardMetadata := none
  shouldCacheQuery := false
  cacheGet := none
  planFromCache := fun _ _ => .error ()
  plan := fun _ => .ok [⟨.other, false, none⟩]

/-- Witness for C7: the theorem applied to a non-capped collection (fails
tailable-on-non-capped), to a capped one with sort `{$natural:-1}`
(fails invalid-sort), and to a capped one with an empty sort
(proceeds into the cache stage). -/
theorem tailable_requires_capped_natural_witness :
    getRunner (tailableEnv ⟨false, false, [], none⟩ []) =
      .error .tailableOnNonCapped ∧
    getRunner (tailableEnv ⟨true, false, [], none⟩ [("$natural", BSONValue.numv (-1))]) =
      .error .invalidTailableSort ∧
    getRunner (tailableEnv ⟨true, false, [], none⟩ []) =
      cacheStage (tailableEnv ⟨true, false, [], none⟩ [])
        (processOptions (tailableEnv ⟨true, false, [], none⟩ [])
          (buildPreTailableParams ⟨true, false, [], none⟩)) := by
  refine ⟨?_, ?_, ?_⟩
  · exact (tailable_requires_capped_natural
      (tailableEnv ⟨false, false, [], none⟩ []) ⟨false, false, [], none⟩ rfl rfl).1 rfl
  · exact (tailable_requires_capped_natural
      (tailableEnv ⟨true, false, [], none⟩ [("$natural", BSONValue.numv (-1))])
      ⟨true, false, [], none⟩ rfl rfl).2.1 rfl (by decide) (by decide)
  · exact (tailable_requires_capped_natural
      (tailableEnv ⟨true, false, [], none⟩ []) ⟨true, false, [], none⟩ rfl rfl).2.2
      rfl (Or.inl rfl)

theorem applyNoTableScanPolicy_keepMutations (env : GetRunnerEnv)
    (o : PlannerOptions) :
    (applyNoTableScanPolicy env o).keepMutations = o.keepMutations := by
  simp only [applyNoTableScanPolicy]
  split <;> rfl

theorem applyIncludeCollscan_keepMutations (o : PlannerOptions) :
    (applyIncludeCollscan o).keepMutations = o.keepMutations := by
  unfold applyIncludeCollscan
  split <;> rfl

/-- C2 (amended).  `KEEP_MUTATIONS` is not part of the params build that
feeds the plan-cache gateway: at the gateway the flag is exactly what the
caller passed; it is added (together with index intersection) only after
the gateway, so the params handed to `QueryPlanner::plan` always carry
it. -/
theorem keep_mutations_set_after_cache_gateway
    (env : GetRunnerEnv) (coll : Collection) :
    (paramsAtCacheGateway env coll).options.keepMutations =
      env.plannerOptions.keepMutations ∧
    (paramsForPlanning env (paramsAtCacheGateway env coll)).options.keepMutations =
      true := by
  constructor
  · have h1 : (applyIncludeCollscan
        (applyNoTableScanPolicy env env.plannerOptions)).keepMutations =
        env.plannerOptions.keepMutations := by
      rw [applyIncludeCollscan_keepMutations, applyNoTableScanPolicy_keepMutations]
    unfold paramsAtCacheGateway processOptions
    dsimp only []
    repeat' split
    all_goals exact h1
  · unfold paramsForPlanning
    split <;> rfl

/-- The cached solution hydrated when `KEEP_MUTATIONS` is visible to
`planFromCache`. -/
def solnSeenKeep : QuerySolution := ⟨.collscan none, false, none⟩

/-- The cached solution hydrated when `KEEP_MUTATIONS` is not visible to
`planFromCache`. -/
def solnSeenNoKeep : QuerySolution := ⟨.other, false, none⟩

/-- An invocation that reaches params assembly (collection present,
id-hack inapplicable, caller options empty) and hits the plan cache; the
hydration oracle answers according to the `KEEP_MUTATIONS` bit it is
shown. -/
def keepMutationsProbeEnv : GetRunnerEnv where
  collection := some ⟨false, false, [], none⟩
  query := ⟨"test.c", ⟨[("a", BSONValue.numv 1)], [], false, false, false, 0⟩⟩
  plannerOptions := {}
  noTableScanGlobal := false
  enableIndexIntersection := false
  shardMetadata := none
  shouldCacheQuery := true
  cacheGet := some ⟨0⟩
  planFromCache := fun p _ =>
    .ok (if p.options.keepMutations then solnSeenKeep else solnSeenNoKeep, none)
  plan := fun _ => .error "never reached"

/-- Counterexample to C2: in `keepMutationsProbeEnv` the params record at
the cache gateway has `KEEP_MUTATIONS` unset, and the invocation
observably hydrates with the flag unset — the returned cached-plan
runner carries `solnSeenNoKeep`.  The flag joins the params only after
the gateway (amended theorem). -/
theorem keep_mutations_cache_counterexample :
    (paramsAtCacheGateway keepMutationsProbeEnv
        ⟨false, false, [], none⟩).options.keepMutations = false ∧
    getRunner keepMutationsProbeEnv = .ok (.cachedPlan solnSeenNoKeep none) ∧
    solnSeenNoKeep ≠ solnSeenKeep := by
  refine ⟨rfl, rfl, ?_⟩
  intro h
  simp [solnSeenNoKeep, solnSeenKeep] at h

/-- C4.  On a plan-cache hit whose hydration yields both a primary and a
backup solution, a query with a positive numeric limit and a non-empty
sort discards the primary and returns a single-solution runner over the
backup, not a cached-plan runner. -/
theorem cache_hit_backup_preferred
    (env : GetRunnerEnv) (coll : Collection) (cs : CachedSolution)
    (qs bqs : QuerySolution)
    (hc : env.collection = some coll)
    (hid : (canUseIDHack env.query && coll.hasIdIndex) = false)
    (htail : env.query.parsed.tailable = true →
      coll.capped = true ∧
        (env.query.parsed.sort = [] ∨ env.query.parsed.sort = naturalOneSort))
    (hsc : env.shouldCacheQuery = true)
    (hget : env.cacheGet = some cs)
    (hpfc : env.planFromCache (paramsAtCacheGateway env coll) cs = .ok (qs, some bqs))
    (hn : 0 < env.query.parsed.numToReturn)
    (hs : env.query.parsed.sort ≠ []) :
    getRunner env = .ok (.singleSolution bqs) := by
  unfold paramsAtCacheGateway at hpfc
  have hcache : cacheStage env (processOptions env (buildPreTailableParams coll)) =
      .ok (.singleSolution bqs) := by
    unfold cacheStage
    rw [hsc, hget]
    simp only [if_true]
    rw [hpfc]
    simp [hn, hs]
  unfold getRunner
  rw [hc]
  simp only [hid, Bool.false_eq_true, if_false]
  cases htv : env.query.parsed.tailable with
  | false => simpa [htv] using hcache
  | true =>
    obtain ⟨hcap, hsort⟩ := htail htv
    rcases hsort with hsort | hsort
    · exact absurd hsort hs
    · simpa [htv, hcap, hsort, naturalOneSort] using hcache

/-- Primary solution of the C4 witness environment. -/
def c4primary : QuerySolution := ⟨.other, false, none⟩

/-- Backup solution of the C4 witness environment. -/
def c4backup : QuerySolution := ⟨.collscan none, false, none⟩

/-- A concrete cache-hit invocation with both a primary and a backup, a
limit of 5 and sort `{b: 1}`. -/
def c4env : GetRunnerEnv where
  collection := some ⟨false, false, [], none⟩
  query := ⟨"test.c", ⟨[("a", BSONValue.numv 1)], [("b", BSONValue.numv 1)],
    false, false, false, 5⟩⟩
  plannerOptions := {}
  noTableScanGlobal := false
  enableIndexIntersection := false
  shardMetadata := none
  shouldCacheQuery := true
  cacheGet := some ⟨0⟩
  planFromCache := fun _ _ => .ok (c4primary, some c4backup)
  plan := fun _ => .error "never reached"

/-- Witness for C4: the theorem applied to `c4env` returns the backup as
a single-solution runner. -/
theorem cache_hit_backup_preferred_witness :
    getRunner c4env = .ok (.singleSolution c4backup) :=
  cache_hit_backup_preferred c4env ⟨false, false, [], none⟩ ⟨0⟩ c4primary c4backup
    rfl rfl (by intro h; cases h) rfl rfl rfl (by decide) (by simp [c4env])

end Mongo
